import Mathlib

/-!
Verification of the pyearthviz tile acquisition and compositing engine
(`pyearthviz/map/raster_map_servers.py` and `pyearthviz/map/base_tile_server.py`).

The Python code is shallowly embedded: pure functions become Lean functions,
floating-point real arithmetic is idealised over `ℝ`, Python `int()` truncation
toward zero is `pytrunc`, exceptions become `Except`, and the external
image-processing library (PIL) is modelled by an explicit RGBA image type whose
decode/resize operations are passed in as parameters together with their size
contracts.
-/

namespace PyEarthViz

/-- An RGBA pixel: (r, g, b, alpha), each channel a natural number
(0..255 in PIL; channel range is irrelevant to the claims). -/
abbrev Pixel := ℕ × ℕ × ℕ × ℕ

/-- A decoded raster image in RGBA layout: pixel dimensions plus a pixel
lookup function (PIL `Image` restricted to what the engine observes). -/
structure Img where
  width : ℕ
  height : ℕ
  pix : ℕ → ℕ → Pixel

/-- `PIL.Image.new('RGBA', (w, h))` (and the explicit `(0, 0, 0, 0)` fill used
for blank sub-tiles): a fully transparent image of the given size. -/
def Img.new (w h : ℕ) : Img where
  width := w
  height := h
  pix := fun _ _ => (0, 0, 0, 0)

/-- `dest.paste(src, (ox, oy))` for RGBA images without a mask: pixels inside
the pasted rectangle are overwritten (no blending), all others kept. -/
def Img.paste (dest src : Img) (ox oy : ℕ) : Img where
  width := dest.width
  height := dest.height
  pix := fun px py =>
    if ox ≤ px ∧ px < ox + src.width ∧ oy ≤ py ∧ py < oy + src.height then
      src.pix (px - ox) (py - oy)
    else dest.pix px py

/-- Provider configuration record: the fields of a `_PROVIDERS` registry entry
that the engine reads (attribution/license strings are out of scope), plus the
provider key itself (used by the API-key environment fallback). -/
structure ProviderConfig where
  provider : String
  url_template : String
  tile_size : ℕ
  requires_api_key : Bool
  special_handling : Option String
  min_zoom : ℤ
  max_zoom : ℤ
  api_env : Option String := none

/-- The `Stadia.StamenTerrain` registry entry (`_PROVIDERS`). -/
def stadia_stamen_terrain : ProviderConfig where
  provider := "Stadia.StamenTerrain"
  url_template := "https://tiles.stadiamaps.com/tiles/stamen_terrain/{z}/{x}/{y}@2x.png?api_key={api_key}"
  tile_size := 512
  requires_api_key := true
  special_handling := none
  min_zoom := 0
  max_zoom := 18

/-- The `Esri.Terrain` registry entry (`_PROVIDERS`). -/
def esri_terrain : ProviderConfig where
  provider := "Esri.Terrain"
  url_template := "https://server.arcgisonline.com/ArcGIS/rest/services/World_Terrain_Base/MapServer/tile/{z}/{y}/{x}"
  tile_size := 256
  requires_api_key := false
  special_handling := none
  min_zoom := 0
  max_zoom := 13

/-- The `Esri.Hydro` registry entry (`_PROVIDERS`), the one provider with the
`make_black_transparent` post-processing directive. -/
def esri_hydro : ProviderConfig where
  provider := "Esri.Hydro"
  url_template := "https://tiles.arcgis.com/tiles/P3ePLMYs2RVChkJx/arcgis/rest/services/Esri_Hydro_Reference_Overlay/MapServer/tile/{z}/{y}/{x}"
  tile_size := 256
  requires_api_key := false
  special_handling := some "make_black_transparent"
  min_zoom := 0
  max_zoom := 19

/-- Python `str.lower()` (the source only ever lowercases ASCII method
names), written structurally over the character list so that it evaluates
inside the kernel. -/
def strLower (s : String) : String := ⟨s.data.map Char.toLower⟩

/-- Python's substring test `needle in hay`, written structurally over the
character lists so that it evaluates inside the kernel. -/
def listContainsSub (needle : List Char) : List Char → Bool
  | [] => needle.isEmpty
  | c :: t => needle.isPrefixOf (c :: t) || listContainsSub needle t

/-- `template.format(z=z, x=x, y=y, api_key=key)` for the registry's URL
templates (whose only placeholders are these four names). -/
def formatTemplate (t : String) (z x y : ℤ) (key : String) : String :=
  ((((t.replace "{z}" (toString z)).replace "{x}" (toString x)).replace
      "{y}" (toString y)).replace "{api_key}" key)

/-- `BaseTileServer._build_tile_url`: format the template with the tile
coordinates and `self.api_key or ''` (missing credential becomes the empty
string; no error is raised here). -/
def build_tile_url (cfg : ProviderConfig) (apiKey : Option String)
    (z x y : ℤ) : String :=
  formatTemplate cfg.url_template z x y (apiKey.getD "")

/-- API-key resolution from `BaseTileServer.__init__`: an explicit key wins;
otherwise, for a provider requiring a key, consult `config.get('api_env')` or
(for providers whose name contains `"Stadia"`) the `STADIA_API_KEY` environment
binding; a required-but-unresolved key yields `(none, warned)` where the `Bool`
records whether the construction-time `UserWarning` fired — construction never
hard-fails over credentials. -/
def resolve_api_key (cfg : ProviderConfig) (explicit : Option String)
    (env : String → Option String) : Option String × Bool :=
  if cfg.requires_api_key then
    match explicit with
    | some k => (some k, false)
    | none =>
      let env_key := cfg.api_env.orElse (fun _ =>
        if listContainsSub "Stadia".data cfg.provider.data then
          some "STADIA_API_KEY"
        else none)
      match env_key with
      | some ek =>
        match env ek with
        | some v => (some v, false)
        | none => (none, true)
      | none => (none, false)
  else (explicit, false)

/-- The loop body of `RasterTileServer._apply_special_handling` for
`make_black_transparent`: a pixel whose R, G and B are all exactly 0 becomes
`(0, 0, 0, 0)`; any other pixel is kept unchanged (exact equality test). -/
def make_black_transparent_pixel (p : Pixel) : Pixel :=
  if p.1 = 0 ∧ p.2.1 = 0 ∧ p.2.2.1 = 0 then (0, 0, 0, 0) else p

/-- `RasterTileServer._apply_special_handling`: applies the provider's
directive; only `make_black_transparent` does anything (the preceding
`convert('RGBA')` is the identity on our always-RGBA image model). -/
def apply_special_handling (handling : Option String) (img : Img) : Img :=
  if handling = some "make_black_transparent" then
    { img with pix := fun x y => make_black_transparent_pixel (img.pix x y) }
  else img

/-- Errors raised by the engine's zoom validation (`ValueError` in the source;
`ZoomOutOfRange` in the spec's taxonomy). -/
inductive ZoomError where
  | zoomOutOfRange
  deriving DecidableEq, Repr

/-- Errors raised by a single tile fetch: non-success transport status
(`FetchFailed` carrying status and URL) or an undecodable payload. -/
inductive FetchError where
  | fetchFailed (status : ℕ) (url : String)
  | decodeFailed

/-- `RasterTileServer.fetch_tile`, with the network and the image decoder as
parameters: `http` maps a URL to a `(status, payload)` response (payloads are
abstract tokens) and `decode` is `PIL.Image.open`. A 200 response is decoded
and post-processed per the provider directive; any other status raises. -/
def fetch_tile (cfg : ProviderConfig) (apiKey : Option String)
    (http : String → ℕ × ℕ) (decode : ℕ → Option Img)
    (z x y : ℤ) : Except FetchError Img :=
  let url := build_tile_url cfg apiKey z x y
  let resp := http url
  if resp.1 = 200 then
    match decode resp.2 with
    | some img =>
      .ok (if cfg.special_handling.isSome then
             apply_special_handling cfg.special_handling img
           else img)
    | none => .error .decodeFailed
  else .error (.fetchFailed resp.1 url)

/-- `RasterTileServer._validate_zoom_level`: hard error when the base zoom is
outside `[min_zoom, max_zoom]`; when `zoom + supersample` exceeds the ceiling,
the supersample is clamped to `max(0, max_zoom - zoom)` with a warning and the
fetch zoom recomputed. Returns `(fetch_zoom, adjusted_supersample)`. -/
def validate_zoom_level (cfg : ProviderConfig) (zoom_level supersample : ℤ) :
    Except ZoomError (ℤ × ℤ) :=
  let fetch_zoom := zoom_level + supersample
  if zoom_level < cfg.min_zoom then .error .zoomOutOfRange
  else if cfg.max_zoom < zoom_level then .error .zoomOutOfRange
  else if cfg.max_zoom < fetch_zoom then
    let supersample' := max 0 (cfg.max_zoom - zoom_level)
    .ok (zoom_level + supersample', supersample')
  else .ok (fetch_zoom, supersample)

/-- PIL resampling filters that `_get_resample_filter` can return. -/
inductive Filter where
  | lanczos
  | bicubic
  | bilinear
  | nearest
  deriving DecidableEq, Repr

/-- `RasterTileServer._get_resample_filter`: dictionary lookup on the
lower-cased method name, defaulting to `LANCZOS` for unknown names
(`filters.get(method.lower(), Image.LANCZOS)`). -/
def get_resample_filter (method : String) : Filter :=
  (([("lanczos", Filter.lanczos), ("bicubic", Filter.bicubic),
      ("bilinear", Filter.bilinear), ("nearest", Filter.nearest)] :
    List (String × Filter)).lookup (strLower method)).getD Filter.lanczos

/-- The inner `for col in range(cols)` loop of `combine_tiles`: paste the
tiles of one grid row left to right at vertical offset `row * ts`, starting at
column index `col`. -/
def pasteRowAux (canvas : Img) (r : List Img) (ts row col : ℕ) : Img :=
  match r with
  | [] => canvas
  | t :: rest => pasteRowAux (canvas.paste t (col * ts) (row * ts)) rest ts row (col + 1)

/-- The outer `for row in range(rows)` loop of `combine_tiles`: paste the grid
rows top to bottom, starting at row index `row`. -/
def pasteRowsAux (canvas : Img) (g : List (List Img)) (ts row : ℕ) : Img :=
  match g with
  | [] => canvas
  | r :: rest => pasteRowsAux (pasteRowAux canvas r ts row 0) rest ts (row + 1)

/-- `RasterTileServer.combine_tiles`: a degenerate grid (`rows == 0` or
`cols == 0`) yields a blank `tile_size × tile_size` RGBA image; otherwise an
RGBA canvas of `(cols·ts) × (rows·ts)` is allocated and every tile pasted at
its `(col·ts, row·ts)` offset. (The source iterates `tiles[row][col]` over
`cols = len(tiles[0])`; the structural iteration over the row lists used here
coincides with it on the rectangular grids the engine builds.) -/
def combine_tiles (tiles : List (List Img)) (tile_size : ℕ) : Img :=
  let rows := tiles.length
  let cols := (tiles.headI).length
  if rows = 0 ∨ cols = 0 then Img.new tile_size tile_size
  else pasteRowsAux (Img.new (cols * tile_size) (rows * tile_size)) tiles tile_size 0

/-- Python `int()` applied to a real value: truncation toward zero. -/
noncomputable def pytrunc (r : ℝ) : ℤ := if 0 ≤ r then ⌊r⌋ else ⌈r⌉

/-- The Web-Mercator y-term of `lonlat_to_tile`:
`log(tan(lat_rad) + 1/cos(lat_rad))`, hoisted to a definition. -/
noncomputable def mercY (lat_rad : ℝ) : ℝ :=
  Real.log (Real.tan lat_rad + 1 / Real.cos lat_rad)

/-- `RasterTileServer.lonlat_to_tile`: standard slippy-map projection with
`n = 2.0 ** zoom`, `x = int((lon + 180) / 360 · n)` and
`y = int((1 − mercY(radians lat) / π) / 2 · n)` (idealised over `ℝ`). -/
noncomputable def lonlat_to_tile (lon lat : ℝ) (zoom : ℤ) : ℤ × ℤ :=
  let lat_rad := lat * Real.pi / 180
  let n : ℝ := (2 : ℝ) ^ zoom
  let x_tile := pytrunc ((lon + 180) / 360 * n)
  let y_tile := pytrunc ((1 - mercY lat_rad / Real.pi) / 2 * n)
  (x_tile, y_tile)

/-- `RasterTileServer.extent_to_tile_indices`: the extent is
`(minx, maxx, miny, maxy)`; the (minLon, minLat) corner gives `(x_min, y_max)`
and the (maxLon, maxLat) corner gives `(x_max, y_min)`. -/
noncomputable def extent_to_tile_indices (extent : ℝ × ℝ × ℝ × ℝ) (zoom : ℤ) :
    ℤ × ℤ × ℤ × ℤ :=
  let p₁ := lonlat_to_tile extent.1 extent.2.2.1 zoom
  let p₂ := lonlat_to_tile extent.2.1 extent.2.2.2 zoom
  (p₁.1, p₂.2, p₂.1, p₁.2)

/-- Python `range(a, b + 1)` over integers, as the list `[a, …, b]`
(empty when `b < a`). -/
def intRange (a b : ℤ) : List ℤ :=
  (List.range (b + 1 - a).toNat).map (fun i => a + (i : ℤ))

/-- `RasterTileServer.fetch_tiles_for_extent`, with the per-tile fetch and the
image library's `resize` as parameters (`fetchImg` abstracts a successful
`fetch_tile`; `resizeImpl img w h f` is `img.resize((w, h), resample=f)`).
Mirrors the source: validate zoom/supersample, compute the tile range at the
fetch zoom, fetch the grid, combine, then either downsample to the
requested-zoom dimensions with the hard-coded `'lanczos'` filter (supersample
mode) or apply the 1.02× up-then-down smoothing pass (smoothing mode). The
final NumPy conversion is the identity on our image model. -/
noncomputable def fetch_tiles_for_extent (cfg : ProviderConfig)
    (fetchImg : ℤ → ℤ → ℤ → Img) (resizeImpl : Img → ℕ → ℕ → Filter → Img)
    (extent : ℝ × ℝ × ℝ × ℝ) (zoom_level supersample : ℤ)
    (resample : Bool) (resample_method : String) : Except ZoomError Img :=
  match validate_zoom_level cfg zoom_level supersample with
  | .error e => .error e
  | .ok (fetch_zoom, ss) =>
    let idx := extent_to_tile_indices extent fetch_zoom
    let tiles := (intRange idx.2.1 idx.2.2.2).map (fun ty =>
      (intRange idx.1 idx.2.2.1).map (fun tx => fetchImg fetch_zoom tx ty))
    let actual_tile_size :=
      match tiles with
      | (t :: _) :: _ => t.width
      | _ => cfg.tile_size
    let combined := combine_tiles tiles actual_tile_size
    let combined :=
      if 0 < ss then
        let oidx := extent_to_tile_indices extent zoom_level
        let target_width := ((oidx.2.2.1 - oidx.1 + 1) * (cfg.tile_size : ℤ)).toNat
        let target_height := ((oidx.2.2.2 - oidx.2.1 + 1) * (cfg.tile_size : ℤ)).toNat
        resizeImpl combined target_width target_height (get_resample_filter "lanczos")
      else combined
    let combined :=
      if resample = true ∧ ss = 0 then
        let temp_w := (pytrunc ((combined.width : ℝ) * 1.02)).toNat
        let temp_h := (pytrunc ((combined.height : ℝ) * 1.02)).toNat
        resizeImpl (resizeImpl combined temp_w temp_h Filter.bicubic)
          combined.width combined.height (get_resample_filter resample_method)
      else combined
    .ok combined

/-- `RasterTileServer._calculate_tile_extent_web_mercator`: analytic fallback
extent of tile `(x, y, z)` in Web-Mercator meters. -/
noncomputable def calculate_tile_extent_web_mercator (x y z : ℤ) :
    ℝ × ℝ × ℝ × ℝ :=
  let world_extent : ℝ := 20037508.342789244
  let tile_width := (2 * world_extent) / (2 : ℝ) ^ z
  let min_x := -world_extent + (x : ℝ) * tile_width
  let max_x := min_x + tile_width
  let max_y := world_extent - (y : ℝ) * tile_width
  let min_y := max_y - tile_width
  (min_x, max_x, min_y, max_y)

/-- The supersample bookkeeping at the head of `UnifiedTileSource.get_image`:
`fetch_z = z + supersample`, re-clamped against the provider ceiling; returns
`(actual_supersample, fetch_z)`. -/
def unified_fetch_plan (cfg : ProviderConfig) (supersample z : ℤ) : ℤ × ℤ :=
  let fetch_z := z + supersample
  if cfg.max_zoom < fetch_z then (cfg.max_zoom - z, cfg.max_zoom)
  else (supersample, fetch_z)

/-- The sub-tile grid fetched by `UnifiedTileSource.get_image`: a
`scale × scale` grid of tiles at the fetch zoom, each failed fetch replaced by
a blank fully transparent `tile_size × tile_size` tile (`try/except` around
`fetch_tile`; the RGBA conversion is the identity on our model). -/
def unified_sub_tiles (fetchTile : ℤ → ℤ → ℤ → Except Unit Img)
    (tile_size : ℕ) (scale fetch_z x y : ℤ) : List (List Img) :=
  (List.range scale.toNat).map (fun (dy : ℕ) =>
    (List.range scale.toNat).map (fun (dx : ℕ) =>
      match fetchTile fetch_z (x * scale + (dx : ℤ)) (y * scale + (dy : ℤ)) with
      | .ok t => t
      | .error _ => Img.new tile_size tile_size))

/-- `UnifiedTileSource.get_image` (the lazy tile adapter built by
`get_cartopy_source`), with the cartopy parent's `get_image`, the per-tile
fetch and `resize` as parameters. With no (effective) supersample the parent
result is post-processed and returned; otherwise the full `scale × scale`
sub-tile grid is fetched (failures degraded to blank tiles), combined,
downsampled to the provider tile edge, and paired with the parent extent or
the analytic Web-Mercator fallback. -/
noncomputable def unified_get_image (cfg : ProviderConfig) (tile_size : ℕ)
    (fetchTile : ℤ → ℤ → ℤ → Except Unit Img)
    (resizeImpl : Img → ℕ → ℕ → Filter → Img) (resample_filter : Filter)
    (parentResult : Except Unit (Img × (ℝ × ℝ × ℝ × ℝ) × String))
    (supersample x y z : ℤ) : Except Unit (Img × (ℝ × ℝ × ℝ × ℝ) × String) :=
  if supersample ≤ 0 then
    parentResult.map (fun r =>
      ((if cfg.special_handling.isSome then
          apply_special_handling cfg.special_handling r.1
        else r.1), r.2))
  else
    let plan := unified_fetch_plan cfg supersample z
    if plan.1 ≤ 0 then
      parentResult.map (fun r =>
        ((if cfg.special_handling.isSome then
            apply_special_handling cfg.special_handling r.1
          else r.1), r.2))
    else
      let scale : ℤ := (2 : ℤ) ^ plan.1.toNat
      let tiles := unified_sub_tiles fetchTile tile_size scale plan.2 x y
      let combined :=
        match tiles with
        | (t :: _) :: _ => combine_tiles tiles t.width
        | _ => Img.new tile_size tile_size
      let combined := resizeImpl combined tile_size tile_size resample_filter
      match parentResult with
      | .ok r => .ok (combined, r.2)
      | .error _ => .ok (combined, calculate_tile_extent_web_mercator x y z, "upper")

/-- Claim C1: for every in-range base zoom `z` and supersample `s ≥ 0`, the
validator returns `(fetch_zoom, s')` with `fetch_zoom = z + s'`, where
`s' = s` whenever `z + s ≤ max_zoom` and `s' = max_zoom - z` otherwise, and
`fetch_zoom ≤ max_zoom` always holds; in particular for `z = 10`, `s = 5`
against `Esri.Terrain`'s `max_zoom = 13` the result is `(13, 3)`. -/
theorem validate_zoom_level_spec (cfg : ProviderConfig) (z s : ℤ)
    (h1 : cfg.min_zoom ≤ z) (h2 : z ≤ cfg.max_zoom) (_hs : 0 ≤ s) :
    (∃ fz s', validate_zoom_level cfg z s = .ok (fz, s') ∧ fz = z + s' ∧
      (z + s ≤ cfg.max_zoom → s' = s) ∧
      (cfg.max_zoom < z + s → s' = cfg.max_zoom - z) ∧
      fz ≤ cfg.max_zoom) ∧
    validate_zoom_level esri_terrain 10 5 = .ok (13, 3) := by
  constructor
  · simp only [validate_zoom_level, if_neg (not_lt.mpr h1), if_neg (not_lt.mpr h2)]
    by_cases hc : cfg.max_zoom < z + s
    · rw [if_pos hc]
      refine ⟨_, _, rfl, rfl, fun h => absurd hc (not_lt.mpr h), fun _ => ?_, ?_⟩ <;> omega
    · rw [if_neg hc]
      exact ⟨_, _, rfl, rfl, fun _ => rfl, fun h => absurd h hc, not_lt.mp hc⟩
  · rfl

/-- Witness for C1: the validator applied to `Esri.Terrain`, `z = 10`,
`s = 5` clamps to `(13, 3)`. -/
theorem validate_zoom_level_spec_witness :
    validate_zoom_level esri_terrain 10 5 = .ok (13, 3) :=
  (validate_zoom_level_spec esri_terrain 10 5 (by decide) (by decide) (by decide)).2

/-- Claim C2: the validator fails (with the zoom-out-of-range error) exactly
when the base zoom is outside `[min_zoom, max_zoom]`, regardless of the
supersample value; in particular `z = 14` against `Esri.Terrain`'s
`max_zoom = 13` errors for every supersample. -/
theorem validate_zoom_level_error_iff (cfg : ProviderConfig) (z s : ℤ) :
    ((∃ e, validate_zoom_level cfg z s = .error e) ↔
      (z < cfg.min_zoom ∨ cfg.max_zoom < z)) ∧
    (∀ s' : ℤ, ∃ e, validate_zoom_level esri_terrain 14 s' = .error e) := by
  constructor
  · constructor
    · rintro ⟨e, he⟩
      by_contra hcon
      push_neg at hcon
      simp only [validate_zoom_level, if_neg (not_lt.mpr hcon.1),
        if_neg (not_lt.mpr hcon.2)] at he
      rcases hcon with ⟨hc1, hc2⟩
      by_cases h3 : cfg.max_zoom < z + s
      · rw [if_pos h3] at he; exact Except.noConfusion he
      · rw [if_neg h3] at he; exact Except.noConfusion he
    · rintro (h1 | h2)
      · exact ⟨.zoomOutOfRange, by simp only [validate_zoom_level, if_pos h1]⟩
      · refine ⟨.zoomOutOfRange, ?_⟩
        by_cases h1 : z < cfg.min_zoom
        · simp only [validate_zoom_level, if_pos h1]
        · simp only [validate_zoom_level, if_neg h1, if_pos h2]
  · exact fun s' => ⟨.zoomOutOfRange, by
      have h14 : ¬((14 : ℤ) < esri_terrain.min_zoom) := by decide
      simp only [validate_zoom_level, if_neg h14,
        if_pos (show esri_terrain.max_zoom < 14 by decide)]⟩

/-- Witness for C2: `Esri.Terrain` at base zoom 14 with supersample 5 errors,
while base zoom 13 with supersample 5 does not. -/
theorem validate_zoom_level_error_iff_witness :
    (∃ e, validate_zoom_level esri_terrain 14 5 = .error e) ∧
    ¬(∃ e, validate_zoom_level esri_terrain 13 5 = .error e) :=
  ⟨(validate_zoom_level_error_iff esri_terrain 14 5).1.mpr (by decide),
   fun h => by
    have := (validate_zoom_level_error_iff esri_terrain 13 5).1.mp h
    revert this; decide⟩

/-- Claim C3 counterexample: `Stadia.StamenTerrain` requires a credential;
constructing a client with no explicit key and an empty environment resolves
no key (only warning); yet a tile fetch on that client with a successful
transport response succeeds — no `MissingCredential` failure occurs at fetch
time, refuting the claim that such a fetch must fail. -/
theorem fetch_without_credential_succeeds :
    stadia_stamen_terrain.requires_api_key = true ∧
    resolve_api_key stadia_stamen_terrain none (fun _ => none) = (none, true) ∧
    (∃ img, fetch_tile stadia_stamen_terrain none (fun _ => (200, 0))
        (fun _ => some (Img.new 512 512)) 10 163 395 = .ok img) := by
  exact ⟨rfl, by decide, ⟨_, rfl⟩⟩

/-- Claim C3 (amended): construction with an unresolvable credential for a
credential-required provider only sets a warning flag (a warning always goes
with an unresolved key, never an error), and a subsequent tile fetch does not
fail over the missing credential: the URL is built with the empty string
substituted for it, and the fetch succeeds whenever the transport returns 200
and the payload decodes. -/
theorem fetch_without_credential_spec (cfg : ProviderConfig)
    (http : String → ℕ × ℕ) (decode : ℕ → Option Img) (z x y : ℤ)
    (img₀ : Img)
    (hstatus : (http (build_tile_url cfg none z x y)).1 = 200)
    (hdecode : decode (http (build_tile_url cfg none z x y)).2 = some img₀) :
    build_tile_url cfg none z x y = formatTemplate cfg.url_template z x y "" ∧
    (∃ img, fetch_tile cfg none http decode z x y = .ok img) ∧
    (∀ explicit env, (resolve_api_key cfg explicit env).2 = true →
      (resolve_api_key cfg explicit env).1 = none) := by
  refine ⟨rfl, ⟨(if cfg.special_handling.isSome then
      apply_special_handling cfg.special_handling img₀ else img₀),
    by simp [fetch_tile, hstatus, hdecode]⟩, ?_⟩
  intro explicit env
  unfold resolve_api_key
  by_cases hreq : cfg.requires_api_key <;> simp [hreq]
  cases explicit with
  | some k => simp
  | none =>
    cases h : (cfg.api_env.orElse fun _ =>
        if listContainsSub "Stadia".data cfg.provider.data then
          some "STADIA_API_KEY" else none) with
    | none => simp
    | some ek => cases henv : env ek <;> simp [henv]

/-- Witness for C3's amended theorem: the `Stadia.StamenTerrain` client with
no resolved key, a transport stub answering 200 and a trivially decodable
payload. -/
theorem fetch_without_credential_spec_witness :
    build_tile_url stadia_stamen_terrain none 10 163 395 =
      formatTemplate stadia_stamen_terrain.url_template 10 163 395 "" ∧
    (∃ img, fetch_tile stadia_stamen_terrain none (fun _ => (200, 0))
        (fun _ => some (Img.new 512 512)) 10 163 395 = .ok img) ∧
    (∀ explicit env,
      (resolve_api_key stadia_stamen_terrain explicit env).2 = true →
      (resolve_api_key stadia_stamen_terrain explicit env).1 = none) :=
  fetch_without_credential_spec stadia_stamen_terrain (fun _ => (200, 0))
    (fun _ => some (Img.new 512 512)) 10 163 395 (Img.new 512 512) rfl rfl

/-- Claim C6: under `make_black_transparent`, a pixel whose R, G, B channels
are all exactly 0 becomes fully transparent `(0,0,0,0)`; a pixel with any
nonzero channel is left unchanged — in particular the near-black `(1,1,1,255)`
stays opaque (the test is exact equality, not a tolerance). `Esri.Hydro` is
the provider carrying this directive. -/
theorem make_black_transparent_spec (img : Img) (x y : ℕ) :
    (((img.pix x y).1 = 0 ∧ (img.pix x y).2.1 = 0 ∧ (img.pix x y).2.2.1 = 0) →
      (apply_special_handling (some "make_black_transparent") img).pix x y =
        (0, 0, 0, 0)) ∧
    (¬((img.pix x y).1 = 0 ∧ (img.pix x y).2.1 = 0 ∧ (img.pix x y).2.2.1 = 0) →
      (apply_special_handling (some "make_black_transparent") img).pix x y =
        img.pix x y) ∧
    make_black_transparent_pixel (1, 1, 1, 255) = (1, 1, 1, 255) ∧
    esri_hydro.special_handling = some "make_black_transparent" := by
  refine ⟨?_, ?_, by decide, rfl⟩
  · intro h
    simp [apply_special_handling, make_black_transparent_pixel, h]
  · intro h
    have hred : (apply_special_handling (some "make_black_transparent") img).pix
        x y = make_black_transparent_pixel (img.pix x y) := by
      rw [apply_special_handling, if_pos rfl]
    rw [hred, make_black_transparent_pixel, if_neg h]

/-- Witness for C6: a pure-black pixel (with nonzero alpha) becomes fully
transparent, while the near-black pixel `(1,1,1,255)` is untouched. -/
theorem make_black_transparent_spec_witness :
    (apply_special_handling (some "make_black_transparent")
        ⟨1, 1, fun _ _ => (0, 0, 0, 7)⟩).pix 0 0 = (0, 0, 0, 0) ∧
    (apply_special_handling (some "make_black_transparent")
        ⟨1, 1, fun _ _ => (1, 1, 1, 255)⟩).pix 0 0 = (1, 1, 1, 255) :=
  ⟨(make_black_transparent_spec ⟨1, 1, fun _ _ => (0, 0, 0, 7)⟩ 0 0).1
      (by decide),
   (make_black_transparent_spec ⟨1, 1, fun _ _ => (1, 1, 1, 255)⟩ 0 0).2.1
      (by decide)⟩

/-- Claim C10: `_get_resample_filter` is total and matches the four filter
names case-insensitively; every other string silently falls back to the
Lanczos filter instead of raising. -/
theorem get_resample_filter_spec :
    (get_resample_filter "LANCZOS" = Filter.lanczos ∧
     get_resample_filter "BiCubic" = Filter.bicubic ∧
     get_resample_filter "Bilinear" = Filter.bilinear ∧
     get_resample_filter "NEAREST" = Filter.nearest) ∧
    (∀ m : String, strLower m ≠ "lanczos" → strLower m ≠ "bicubic" →
      strLower m ≠ "bilinear" → strLower m ≠ "nearest" →
      get_resample_filter m = Filter.lanczos) := by
  refine ⟨⟨by decide, by decide, by decide, by decide⟩, ?_⟩
  intro m h1 h2 h3 h4
  have e1 : (strLower m == "lanczos") = false := beq_eq_false_iff_ne.mpr h1
  have e2 : (strLower m == "bicubic") = false := beq_eq_false_iff_ne.mpr h2
  have e3 : (strLower m == "bilinear") = false := beq_eq_false_iff_ne.mpr h3
  have e4 : (strLower m == "nearest") = false := beq_eq_false_iff_ne.mpr h4
  simp [get_resample_filter, List.lookup, e1, e2, e3, e4]

/-- Witness for C10: an unrecognized method name degrades to Lanczos. -/
theorem get_resample_filter_spec_witness :
    get_resample_filter "garbage" = Filter.lanczos :=
  get_resample_filter_spec.2 "garbage" (by decide) (by decide) (by decide)
    (by decide)

theorem pasteRowAux_width (c : Img) (r : List Img) (ts row col : ℕ) :
    (pasteRowAux c r ts row col).width = c.width := by
  induction r generalizing c col with
  | nil => rfl
  | cons t rest ih => simpa [pasteRowAux, Img.paste] using ih _ (col + 1)

theorem pasteRowAux_height (c : Img) (r : List Img) (ts row col : ℕ) :
    (pasteRowAux c r ts row col).height = c.height := by
  induction r generalizing c col with
  | nil => rfl
  | cons t rest ih => simpa [pasteRowAux, Img.paste] using ih _ (col + 1)

theorem pasteRowsAux_width (c : Img) (g : List (List Img)) (ts row : ℕ) :
    (pasteRowsAux c g ts row).width = c.width := by
  induction g generalizing c row with
  | nil => rfl
  | cons r rest ih =>
    rw [pasteRowsAux, ih _ (row + 1), pasteRowAux_width]

theorem pasteRowsAux_height (c : Img) (g : List (List Img)) (ts row : ℕ) :
    (pasteRowsAux c g ts row).height = c.height := by
  induction g generalizing c row with
  | nil => rfl
  | cons r rest ih =>
    rw [pasteRowsAux, ih _ (row + 1), pasteRowAux_height]

theorem pasteRowAux_pix_miss_y (c : Img) (r : List Img) (ts row col px py : ℕ)
    (hsq : ∀ t ∈ r, t.height = ts)
    (hy : py < row * ts ∨ row * ts + ts ≤ py) :
    (pasteRowAux c r ts row col).pix px py = c.pix px py := by
  induction r generalizing c col with
  | nil => rfl
  | cons t rest ih =>
    rw [pasteRowAux]
    rw [ih _ (col + 1) (fun t' ht' => hsq t' (List.mem_cons_of_mem _ ht'))]
    have hh : t.height = ts := hsq t (List.mem_cons_self t rest)
    simp only [Img.paste]
    rw [if_neg]
    rintro ⟨-, -, hy1, hy2⟩
    rw [hh] at hy2
    rcases hy with h | h <;> omega

theorem pasteRowAux_pix_miss_x (c : Img) (r : List Img) (ts row col px py : ℕ)
    (hsq : ∀ t ∈ r, t.width = ts)
    (hx : px < col * ts) :
    (pasteRowAux c r ts row col).pix px py = c.pix px py := by
  induction r generalizing c col with
  | nil => rfl
  | cons t rest ih =>
    rw [pasteRowAux]
    rw [ih _ (col + 1) (fun t' ht' => hsq t' (List.mem_cons_of_mem _ ht'))
        (by nlinarith)]
    simp only [Img.paste]
    rw [if_neg]
    rintro ⟨hx1, -, -, -⟩
    omega

theorem pasteRowAux_pix_hit (c : Img) (r : List Img) (ts row col k i j : ℕ)
    (hsq : ∀ t ∈ r, t.width = ts ∧ t.height = ts)
    (hk : k < r.length) (hi : i < ts) (hj : j < ts) :
    (pasteRowAux c r ts row col).pix ((col + k) * ts + i) (row * ts + j) =
      (r.getD k (Img.new 0 0)).pix i j := by
  induction r generalizing c col k with
  | nil => exact absurd hk (Nat.not_lt_zero k)
  | cons t rest ih =>
    rcases k with - | k'
    · simp only [Nat.add_zero]
      rw [pasteRowAux]
      rw [pasteRowAux_pix_miss_x _ rest ts row (col + 1) _ _
          (fun t' ht' => (hsq t' (List.mem_cons_of_mem _ ht')).1)
          (by nlinarith)]
      have hw : t.width = ts := (hsq t (List.mem_cons_self t rest)).1
      have hh : t.height = ts := (hsq t (List.mem_cons_self t rest)).2
      simp only [Img.paste]
      rw [if_pos ⟨Nat.le_add_right _ _, by rw [hw]; omega,
        Nat.le_add_right _ _, by rw [hh]; omega⟩]
      have h1 : col * ts + i - col * ts = i := by omega
      have h2 : row * ts + j - row * ts = j := by omega
      rw [h1, h2]
      rfl
    · rw [pasteRowAux]
      have := ih (c.paste t (col * ts) (row * ts)) (col + 1) k'
        (fun t' ht' => hsq t' (List.mem_cons_of_mem _ ht'))
        (by simp only [List.length_cons] at hk; omega)
      have harg : (col + (k' + 1)) * ts + i = ((col + 1) + k') * ts + i := by
        ring
      rw [harg, this]
      rfl

theorem pasteRowsAux_pix_miss (c : Img) (g : List (List Img)) (ts row px py : ℕ)
    (hsq : ∀ r ∈ g, ∀ t ∈ r, t.height = ts)
    (hy : py < row * ts) :
    (pasteRowsAux c g ts row).pix px py = c.pix px py := by
  induction g generalizing c row with
  | nil => rfl
  | cons r rest ih =>
    rw [pasteRowsAux]
    rw [ih _ (row + 1) (fun r' hr' => hsq r' (List.mem_cons_of_mem _ hr'))
        (by nlinarith)]
    exact pasteRowAux_pix_miss_y _ _ _ _ _ _ _
      (hsq r (List.mem_cons_self r rest)) (Or.inl hy)

theorem pasteRowsAux_pix_hit (c : Img) (g : List (List Img)) (ts row rk ck i j : ℕ)
    (hsq : ∀ r ∈ g, ∀ t ∈ r, t.width = ts ∧ t.height = ts)
    (hrk : rk < g.length) (hck : ck < (g.getD rk []).length)
    (hi : i < ts) (hj : j < ts) :
    (pasteRowsAux c g ts row).pix (ck * ts + i) ((row + rk) * ts + j) =
      ((g.getD rk []).getD ck (Img.new 0 0)).pix i j := by
  induction g generalizing c row rk with
  | nil => exact absurd hrk (Nat.not_lt_zero rk)
  | cons r rest ih =>
    rcases rk with - | rk'
    · simp only [Nat.add_zero]
      rw [pasteRowsAux]
      rw [pasteRowsAux_pix_miss _ rest ts (row + 1) _ _
          (fun r' hr' t' ht' => (hsq r' (List.mem_cons_of_mem _ hr') t' ht').2)
          (by nlinarith)]
      have := pasteRowAux_pix_hit c r ts row 0 ck i j
        (hsq r (List.mem_cons_self r rest)) (by simpa using hck) hi hj
      simpa using this
    · rw [pasteRowsAux]
      have := ih (pasteRowAux c r ts row 0) (row + 1) rk'
        (fun r' hr' => hsq r' (List.mem_cons_of_mem _ hr'))
        (by simp only [List.length_cons] at hrk; omega) (by simpa using hck)
      have harg : (row + (rk' + 1)) * ts + j = ((row + 1) + rk') * ts + j := by
        ring
      rw [harg, this]
      rfl

/-- Claim C7: combining a non-empty rectangular `rows × cols` grid of
`tileEdge`-sized tiles yields an RGBA canvas of exactly
`(cols·tileEdge) × (rows·tileEdge)` pixels with every tile pasted unblended at
its `(col·tileEdge, row·tileEdge)` offset, while a degenerate grid (`rows = 0`
or `cols = 0`) yields a single blank fully transparent
`tileEdge × tileEdge` image. -/
theorem combine_tiles_spec (tiles : List (List Img)) (ts : ℕ) :
    (tiles.length = 0 ∨ (tiles.headI).length = 0 →
      combine_tiles tiles ts = Img.new ts ts ∧
      (Img.new ts ts).width = ts ∧ (Img.new ts ts).height = ts ∧
      ∀ a b, (Img.new ts ts).pix a b = (0, 0, 0, 0)) ∧
    (0 < tiles.length → 0 < (tiles.headI).length →
      (∀ r ∈ tiles, r.length = (tiles.headI).length) →
      (∀ r ∈ tiles, ∀ t ∈ r, t.width = ts ∧ t.height = ts) →
      (combine_tiles tiles ts).width = (tiles.headI).length * ts ∧
      (combine_tiles tiles ts).height = tiles.length * ts ∧
      ∀ r c i j, r < tiles.length → c < (tiles.headI).length →
        i < ts → j < ts →
        (combine_tiles tiles ts).pix (c * ts + i) (r * ts + j) =
          ((tiles.getD r []).getD c (Img.new 0 0)).pix i j) := by
  constructor
  · intro hdeg
    refine ⟨?_, rfl, rfl, fun a b => rfl⟩
    simp only [combine_tiles]
    rw [if_pos hdeg]
  · intro hrows hcols hrect hsq
    have hndeg : ¬(tiles.length = 0 ∨ (tiles.headI).length = 0) := by
      rintro (h | h) <;> omega
    simp only [combine_tiles]
    rw [if_neg hndeg]
    refine ⟨?_, ?_, ?_⟩
    · rw [pasteRowsAux_width]; rfl
    · rw [pasteRowsAux_height]; rfl
    · intro r c i j hr hc hi hj
      have hck : c < (tiles.getD r []).length := by
        rw [List.getD_eq_getElem tiles [] hr]
        have := hrect (tiles[r]) (List.getElem_mem hr)
        omega
      have := pasteRowsAux_pix_hit
        (Img.new ((tiles.headI).length * ts) (tiles.length * ts))
        tiles ts 0 r c i j hsq hr hck hi hj
      simpa using this

/-- Witness for C7: a concrete 1×2 grid of distinguishable 1×1 tiles is
combined into a 2×1 canvas whose pixels are the pasted tiles, and the empty
grid yields the blank transparent tile. -/
theorem combine_tiles_spec_witness :
    combine_tiles ([] : List (List Img)) 256 = Img.new 256 256 ∧
    (combine_tiles [[⟨1, 1, fun _ _ => (9, 9, 9, 9)⟩,
        ⟨1, 1, fun _ _ => (5, 5, 5, 5)⟩]] 1).width = 2 ∧
    (combine_tiles [[⟨1, 1, fun _ _ => (9, 9, 9, 9)⟩,
        ⟨1, 1, fun _ _ => (5, 5, 5, 5)⟩]] 1).height = 1 ∧
    (combine_tiles [[⟨1, 1, fun _ _ => (9, 9, 9, 9)⟩,
        ⟨1, 1, fun _ _ => (5, 5, 5, 5)⟩]] 1).pix 1 0 = (5, 5, 5, 5) := by
  refine ⟨((combine_tiles_spec ([] : List (List Img)) 256).1
      (Or.inl rfl)).1, ?_, ?_, ?_⟩
  · exact ((combine_tiles_spec [[⟨1, 1, fun _ _ => (9, 9, 9, 9)⟩,
      ⟨1, 1, fun _ _ => (5, 5, 5, 5)⟩]] 1).2 (by decide) (by decide)
      (by decide) (by decide)).1
  · exact ((combine_tiles_spec [[⟨1, 1, fun _ _ => (9, 9, 9, 9)⟩,
      ⟨1, 1, fun _ _ => (5, 5, 5, 5)⟩]] 1).2 (by decide) (by decide)
      (by decide) (by decide)).2.1
  · exact ((combine_tiles_spec [[⟨1, 1, fun _ _ => (9, 9, 9, 9)⟩,
      ⟨1, 1, fun _ _ => (5, 5, 5, 5)⟩]] 1).2 (by decide) (by decide)
      (by decide) (by decide)).2.2 0 1 0 0 (by decide) (by decide)
      (by decide) (by decide)

theorem pytrunc_mono {a b : ℝ} (h : a ≤ b) : pytrunc a ≤ pytrunc b := by
  unfold pytrunc
  by_cases ha : 0 ≤ a
  · rw [if_pos ha, if_pos (le_trans ha h)]
    exact Int.floor_le_floor h
  · by_cases hb : 0 ≤ b
    · rw [if_neg ha, if_pos hb]
      refine le_trans (Int.ceil_le.mpr ?_) (Int.floor_nonneg.mpr hb)
      push_cast
      linarith [le_of_not_le ha]
    · rw [if_neg ha, if_neg hb]
      exact Int.ceil_le_ceil h

theorem sin_pi_div_36_gt : (0.0871 : ℝ) < Real.sin (Real.pi / 36) := by
  have h1 : (0.0872664 : ℝ) < Real.pi / 36 := by
    have := Real.pi_gt_d6
    norm_num at this ⊢
    linarith
  have h2 : Real.pi / 36 < (0.0872665 : ℝ) := by
    have := Real.pi_lt_d6
    norm_num at this ⊢
    linarith
  have h3 := Real.sin_gt_sub_cube (x := Real.pi / 36) (by linarith) (by linarith)
  have hcube : (Real.pi / 36) ^ 3 < (0.0872665 : ℝ) ^ 3 :=
    pow_lt_pow_left₀ h2 (by linarith) (by norm_num)
  nlinarith [h3, h1, hcube]

theorem exp_pi_gt : (23.03 : ℝ) < Real.exp Real.pi := by
  have hmono : Real.exp 3.141592 < Real.exp Real.pi :=
    Real.exp_lt_exp.mpr (by have := Real.pi_gt_d6; norm_num at this ⊢; linarith)
  have hsplit : Real.exp (3.141592 : ℝ) = Real.exp 3 * Real.exp 0.141592 := by
    rw [← Real.exp_add]; norm_num
  have h3 : (20.0855 : ℝ) < Real.exp 3 := by
    have hcube : Real.exp (3 : ℝ) = Real.exp 1 ^ 3 := by
      rw [← Real.exp_nat_mul]; norm_num
    have h4 := Real.exp_one_gt_d9
    have h5 : (2.7182818283 : ℝ) ^ 3 < Real.exp 1 ^ 3 :=
      pow_lt_pow_left₀ h4 (by norm_num) (by norm_num)
    rw [hcube]
    nlinarith [h5]
  have h5 : (1.1466 : ℝ) < Real.exp 0.141592 := by
    have hsq : Real.exp (0.141592 : ℝ) = Real.exp 0.070796 ^ 2 := by
      rw [← Real.exp_nat_mul]; norm_num
    have h6 : (1.070796 : ℝ) ≤ Real.exp 0.070796 := by
      have := Real.add_one_le_exp (0.070796 : ℝ)
      linarith
    rw [hsq]
    nlinarith [h6]
  nlinarith [hmono, h3, h5, hsplit, Real.exp_pos (3 : ℝ),
    Real.exp_pos (0.141592 : ℝ)]

theorem merc_ratio_eq (θ : ℝ) (hc : 0 < Real.cos θ) :
    Real.tan θ + 1 / Real.cos θ = (1 + Real.sin θ) / Real.cos θ := by
  rw [Real.tan_eq_sin_div_cos]
  field_simp
  ring

theorem sin_lt_one_of_cos_pos (θ : ℝ) (hc : 0 < Real.cos θ) :
    -1 < Real.sin θ ∧ Real.sin θ < 1 := by
  have h := Real.sin_sq_add_cos_sq θ
  constructor <;> nlinarith

theorem merc_ratio_sq (θ : ℝ) (hc : 0 < Real.cos θ) :
    ((1 + Real.sin θ) / Real.cos θ) ^ 2 =
      (1 + Real.sin θ) / (1 - Real.sin θ) := by
  have h := Real.sin_sq_add_cos_sq θ
  obtain ⟨h1, h2⟩ := sin_lt_one_of_cos_pos θ hc
  have hc' : Real.cos θ ≠ 0 := ne_of_gt hc
  have hs' : (1 : ℝ) - Real.sin θ ≠ 0 := by linarith
  field_simp
  nlinarith [h]

theorem mercY_mono {a b : ℝ} (ha : -(Real.pi / 2) < a) (hb : b < Real.pi / 2)
    (hab : a ≤ b) : mercY a ≤ mercY b := by
  have ha2 : a < Real.pi / 2 := lt_of_le_of_lt hab hb
  have hb2 : -(Real.pi / 2) < b := lt_of_lt_of_le ha hab
  have hca : 0 < Real.cos a := Real.cos_pos_of_mem_Ioo ⟨ha, ha2⟩
  have hcb : 0 < Real.cos b := Real.cos_pos_of_mem_Ioo ⟨hb2, hb⟩
  have hsab : Real.sin a ≤ Real.sin b :=
    Real.sin_le_sin_of_le_of_le_pi_div_two (by linarith) (by linarith) hab
  obtain ⟨hsa1, hsa2⟩ := sin_lt_one_of_cos_pos a hca
  obtain ⟨hsb1, hsb2⟩ := sin_lt_one_of_cos_pos b hcb
  have hra : 0 < (1 + Real.sin a) / Real.cos a := div_pos (by linarith) hca
  have hrb : 0 < (1 + Real.sin b) / Real.cos b := div_pos (by linarith) hcb
  have key : ((1 + Real.sin a) / Real.cos a) ^ 2 ≤
      ((1 + Real.sin b) / Real.cos b) ^ 2 := by
    rw [merc_ratio_sq a hca, merc_ratio_sq b hcb]
    rw [div_le_div_iff (by linarith) (by linarith)]
    nlinarith [hsab]
  have hr : (1 + Real.sin a) / Real.cos a ≤ (1 + Real.sin b) / Real.cos b := by
    nlinarith [key, hra, hrb]
  unfold mercY
  rw [merc_ratio_eq a hca, merc_ratio_eq b hcb]
  exact (Real.log_le_log_iff hra (lt_of_lt_of_le hra hr)).mpr hr

theorem mercY_bounds (θ : ℝ) (h : |θ| ≤ 17 * Real.pi / 36) :
    -Real.pi < mercY θ ∧ mercY θ < Real.pi := by
  have hπ := Real.pi_pos
  obtain ⟨habs1, habs2⟩ := abs_le.mp h
  have hc : 0 < Real.cos θ :=
    Real.cos_pos_of_mem_Ioo ⟨by linarith, by linarith⟩
  have hcos_ge : Real.sin (Real.pi / 36) ≤ Real.cos θ := by
    have h1 : Real.cos (17 * Real.pi / 36) ≤ Real.cos |θ| :=
      Real.cos_le_cos_of_nonneg_of_le_pi (abs_nonneg θ) (by linarith) h
    rw [Real.cos_abs] at h1
    have h2 : (17 * Real.pi / 36 : ℝ) = Real.pi / 2 - Real.pi / 36 := by ring
    rw [h2, Real.cos_pi_div_two_sub] at h1
    exact h1
  have hs36 := sin_pi_div_36_gt
  have hE := exp_pi_gt
  obtain ⟨hs1, hs2⟩ := sin_lt_one_of_cos_pos θ hc
  have hr_pos : 0 < (1 + Real.sin θ) / Real.cos θ := div_pos (by linarith) hc
  have hub : (1 + Real.sin θ) / Real.cos θ < Real.exp Real.pi := by
    have hle : (1 + Real.sin θ) / Real.cos θ ≤ 2 / Real.sin (Real.pi / 36) :=
      div_le_div (by norm_num) (by linarith [Real.sin_le_one θ]) (by linarith)
        hcos_ge
    have hlt : 2 / Real.sin (Real.pi / 36) < 23.03 := by
      rw [div_lt_iff (by linarith)]
      nlinarith [hs36]
    linarith
  have hid : (1 + Real.sin θ) / Real.cos θ =
      Real.cos θ / (1 - Real.sin θ) := by
    rw [div_eq_div_iff (ne_of_gt hc) (by linarith : (1 : ℝ) - Real.sin θ ≠ 0)]
    linear_combination -(Real.sin_sq_add_cos_sq θ)
  have hlb : Real.exp (-Real.pi) < (1 + Real.sin θ) / Real.cos θ := by
    have hlow : Real.sin (Real.pi / 36) / 2 ≤ (1 + Real.sin θ) / Real.cos θ := by
      rw [hid]
      exact div_le_div (le_of_lt hc) hcos_ge (by linarith) (by linarith)
    have hexp_lt : Real.exp (-Real.pi) < Real.sin (Real.pi / 36) / 2 := by
      rw [Real.exp_neg, inv_eq_one_div,
        div_lt_div_iff (Real.exp_pos Real.pi) (by norm_num : (0 : ℝ) < 2)]
      nlinarith [hE, hs36]
    linarith
  have hmer : mercY θ = Real.log ((1 + Real.sin θ) / Real.cos θ) := by
    rw [mercY, merc_ratio_eq θ hc]
  constructor
  · rw [hmer]
    exact (Real.lt_log_iff_exp_lt hr_pos).mpr hlb
  · rw [hmer]
    exact (Real.log_lt_iff_lt_exp hr_pos).mpr hub

/-- Claim C4 (amended): for every longitude in `[-180, 180)` (the claim's
closed right endpoint fails: at `lon = 180` the x index equals `2^zoom`),
every latitude with `|lat| < 85` degrees, and every zoom `≥ 0`,
`lonlat_to_tile` yields tile indices `x, y ∈ [0, 2^zoom)`. -/
theorem lonlat_to_tile_bounds (lon lat : ℝ) (zoom : ℤ) (hz : 0 ≤ zoom)
    (h1 : -180 ≤ lon) (h2 : lon < 180) (hlat : |lat| < 85) :
    0 ≤ (lonlat_to_tile lon lat zoom).1 ∧
    (lonlat_to_tile lon lat zoom).1 < 2 ^ zoom.toNat ∧
    0 ≤ (lonlat_to_tile lon lat zoom).2 ∧
    (lonlat_to_tile lon lat zoom).2 < 2 ^ zoom.toNat := by
  have hπ := Real.pi_pos
  have hnpos : (0 : ℝ) < (2 : ℝ) ^ zoom := zpow_pos (by norm_num) zoom
  have hn : ((2 ^ zoom.toNat : ℤ) : ℝ) = (2 : ℝ) ^ zoom := by
    push_cast
    rw [← zpow_natCast (2 : ℝ) zoom.toNat, Int.toNat_of_nonneg hz]
  have hθ : |lat * Real.pi / 180| ≤ 17 * Real.pi / 36 := by
    have h85 : |lat| * Real.pi < 85 * Real.pi :=
      mul_lt_mul_of_pos_right hlat Real.pi_pos
    rw [abs_div, abs_mul, abs_of_pos Real.pi_pos,
      abs_of_pos (show (0 : ℝ) < 180 by norm_num)]
    rw [div_le_iff (show (0 : ℝ) < 180 by norm_num)]
    linarith
  obtain ⟨hm1, hm2⟩ := mercY_bounds (lat * Real.pi / 180) hθ
  simp only [lonlat_to_tile]
  have hxr0 : (0 : ℝ) ≤ (lon + 180) / 360 * ((2 : ℝ) ^ zoom) := by
    apply mul_nonneg _ (le_of_lt hnpos)
    linarith
  have hxrn : (lon + 180) / 360 * ((2 : ℝ) ^ zoom) < (2 : ℝ) ^ zoom := by
    have : (lon + 180) / 360 < 1 := by linarith
    nlinarith
  have hyr0 : (0 : ℝ) <
      (1 - mercY (lat * Real.pi / 180) / Real.pi) / 2 * ((2 : ℝ) ^ zoom) := by
    apply mul_pos _ hnpos
    have : mercY (lat * Real.pi / 180) / Real.pi < 1 := by
      rw [div_lt_one hπ]; exact hm2
    linarith
  have hyrn : (1 - mercY (lat * Real.pi / 180) / Real.pi) / 2 *
      ((2 : ℝ) ^ zoom) < (2 : ℝ) ^ zoom := by
    have : -1 < mercY (lat * Real.pi / 180) / Real.pi := by
      rw [lt_div_iff hπ]; linarith
    nlinarith
  refine ⟨?_, ?_, ?_, ?_⟩
  · rw [pytrunc, if_pos hxr0]
    exact Int.floor_nonneg.mpr hxr0
  · rw [pytrunc, if_pos hxr0]
    rw [Int.floor_lt, hn]
    exact hxrn
  · rw [pytrunc, if_pos (le_of_lt hyr0)]
    exact Int.floor_nonneg.mpr (le_of_lt hyr0)
  · rw [pytrunc, if_pos (le_of_lt hyr0)]
    rw [Int.floor_lt, hn]
    exact hyrn

/-- Claim C4 counterexample: at the claim's included right endpoint
`lon = 180` (with `lat = 0`, `zoom = 0`) the x tile index equals `2^zoom`,
violating `x < 2^zoom`. -/
theorem lonlat_to_tile_lon180 :
    (lonlat_to_tile 180 0 0).1 = 2 ^ (0 : ℤ).toNat ∧
    ¬((lonlat_to_tile 180 0 0).1 < 2 ^ (0 : ℤ).toNat) := by
  have hx : (lonlat_to_tile 180 0 0).1 = 1 := by
    simp only [lonlat_to_tile]
    norm_num [pytrunc]
  rw [hx]
  exact ⟨rfl, by decide⟩

/-- Witness for C4's amended theorem at `lon = 0`, `lat = 0`, `zoom = 0`. -/
theorem lonlat_to_tile_bounds_witness :
    0 ≤ (lonlat_to_tile 0 0 0).1 ∧
    (lonlat_to_tile 0 0 0).1 < 2 ^ (0 : ℤ).toNat ∧
    0 ≤ (lonlat_to_tile 0 0 0).2 ∧
    (lonlat_to_tile 0 0 0).2 < 2 ^ (0 : ℤ).toNat :=
  lonlat_to_tile_bounds 0 0 0 (by norm_num) (by norm_num) (by norm_num)
    (by norm_num)

/-- Claim C5: for every extent with `minLon < maxLon`, `minLat < maxLat`
(latitudes within the projection's domain `|lat| < 90`) and every zoom,
`extent_to_tile_indices` returns `(xMin, yMin, xMax, yMax)` with
`xMin ≤ xMax` and `yMin ≤ yMax`, where `(xMin, yMax)` is the tile index of
the `(minLon, minLat)` corner and `(xMax, yMin)` that of the
`(maxLon, maxLat)` corner (y swapped because tile-y grows southward). -/
theorem extent_to_tile_indices_spec (minLon maxLon minLat maxLat : ℝ)
    (zoom : ℤ) (hlon : minLon < maxLon) (hlat : minLat < maxLat)
    (hlat1 : |minLat| < 90) (hlat2 : |maxLat| < 90) :
    (extent_to_tile_indices (minLon, maxLon, minLat, maxLat) zoom).1 ≤
      (extent_to_tile_indices (minLon, maxLon, minLat, maxLat) zoom).2.2.1 ∧
    (extent_to_tile_indices (minLon, maxLon, minLat, maxLat) zoom).2.1 ≤
      (extent_to_tile_indices (minLon, maxLon, minLat, maxLat) zoom).2.2.2 ∧
    ((extent_to_tile_indices (minLon, maxLon, minLat, maxLat) zoom).1,
     (extent_to_tile_indices (minLon, maxLon, minLat, maxLat) zoom).2.2.2) =
      lonlat_to_tile minLon minLat zoom ∧
    ((extent_to_tile_indices (minLon, maxLon, minLat, maxLat) zoom).2.2.1,
     (extent_to_tile_indices (minLon, maxLon, minLat, maxLat) zoom).2.1) =
      lonlat_to_tile maxLon maxLat zoom := by
  have hπ := Real.pi_pos
  have hnpos : (0 : ℝ) < (2 : ℝ) ^ zoom := zpow_pos (by norm_num) zoom
  refine ⟨?_, ?_, rfl, rfl⟩
  · simp only [extent_to_tile_indices, lonlat_to_tile]
    apply pytrunc_mono
    apply mul_le_mul_of_nonneg_right _ (le_of_lt hnpos)
    linarith
  · simp only [extent_to_tile_indices, lonlat_to_tile]
    apply pytrunc_mono
    apply mul_le_mul_of_nonneg_right _ (le_of_lt hnpos)
    have hb1 : -(Real.pi / 2) < minLat * Real.pi / 180 := by
      rcases abs_lt.mp hlat1 with ⟨hl, hr⟩
      nlinarith
    have hb2 : maxLat * Real.pi / 180 < Real.pi / 2 := by
      rcases abs_lt.mp hlat2 with ⟨hl, hr⟩
      nlinarith
    have hab : minLat * Real.pi / 180 ≤ maxLat * Real.pi / 180 := by
      have := mul_le_mul_of_nonneg_right (le_of_lt hlat) (le_of_lt hπ)
      linarith
    have hm := mercY_mono hb1 hb2 hab
    have hd : mercY (minLat * Real.pi / 180) / Real.pi ≤
        mercY (maxLat * Real.pi / 180) / Real.pi :=
      (div_le_div_right hπ).mpr hm
    linarith

/-- Witness for C5 at the extent `(0, 1, 0, 1)` and zoom 0. -/
theorem extent_to_tile_indices_spec_witness :
    (extent_to_tile_indices (0, 1, 0, 1) 0).1 ≤
      (extent_to_tile_indices (0, 1, 0, 1) 0).2.2.1 ∧
    (extent_to_tile_indices (0, 1, 0, 1) 0).2.1 ≤
      (extent_to_tile_indices (0, 1, 0, 1) 0).2.2.2 ∧
    ((extent_to_tile_indices (0, 1, 0, 1) 0).1,
     (extent_to_tile_indices (0, 1, 0, 1) 0).2.2.2) =
      lonlat_to_tile 0 0 0 ∧
    ((extent_to_tile_indices (0, 1, 0, 1) 0).2.2.1,
     (extent_to_tile_indices (0, 1, 0, 1) 0).2.1) =
      lonlat_to_tile 1 1 0 :=
  extent_to_tile_indices_spec 0 1 0 1 0 (by norm_num) (by norm_num)
    (by norm_num) (by norm_num)

/-- Claim C8: when the effective (post-validation) supersample is positive,
`fetch_tiles_for_extent` succeeds and its composite is downsampled to exactly
the pixel dimensions of the tile range computed at the requested zoom —
`(xMax - xMin + 1)·tile_size` by `(yMax - yMin + 1)·tile_size` — independent
of what was fetched at the higher zoom; the result does not depend on the
caller's `resample`/`resample_method` arguments, and the downsampling filter
is the hard-coded `'lanczos'` (which resolves to the Lanczos filter). -/
theorem fetch_tiles_supersample_spec (cfg : ProviderConfig)
    (fetchImg : ℤ → ℤ → ℤ → Img) (resizeImpl : Img → ℕ → ℕ → Filter → Img)
    (extent : ℝ × ℝ × ℝ × ℝ) (zoom ss : ℤ) (resample : Bool) (m : String)
    (hres : ∀ img w h f, (resizeImpl img w h f).width = w ∧
      (resizeImpl img w h f).height = h)
    (h1 : cfg.min_zoom ≤ zoom) (h2 : zoom ≤ cfg.max_zoom)
    (hss : 0 < ss) (hlt : zoom < cfg.max_zoom) :
    (∃ img, fetch_tiles_for_extent cfg fetchImg resizeImpl extent zoom ss
        resample m = .ok img ∧
      img.width = (((extent_to_tile_indices extent zoom).2.2.1 -
        (extent_to_tile_indices extent zoom).1 + 1) *
        (cfg.tile_size : ℤ)).toNat ∧
      img.height = (((extent_to_tile_indices extent zoom).2.2.2 -
        (extent_to_tile_indices extent zoom).2.1 + 1) *
        (cfg.tile_size : ℤ)).toNat) ∧
    (∀ (r₂ : Bool) (m₂ : String),
      fetch_tiles_for_extent cfg fetchImg resizeImpl extent zoom ss resample m
        = fetch_tiles_for_extent cfg fetchImg resizeImpl extent zoom ss r₂ m₂) ∧
    get_resample_filter "lanczos" = Filter.lanczos := by
  have hval : ∃ fz ss', validate_zoom_level cfg zoom ss = .ok (fz, ss') ∧
      0 < ss' := by
    simp only [validate_zoom_level, if_neg (not_lt.mpr h1),
      if_neg (not_lt.mpr h2)]
    by_cases hc : cfg.max_zoom < zoom + ss
    · rw [if_pos hc]
      exact ⟨_, _, rfl, by omega⟩
    · rw [if_neg hc]
      exact ⟨_, _, rfl, hss⟩
  obtain ⟨fz, ss', hveq, hss'⟩ := hval
  have hsmooth : ∀ (r : Bool), ¬(r = true ∧ ss' = 0) := by
    rintro r ⟨-, h0⟩
    omega
  refine ⟨?_, ?_, rfl⟩
  · simp only [fetch_tiles_for_extent, hveq]
    rw [if_pos hss', if_neg (hsmooth resample)]
    exact ⟨_, rfl, (hres _ _ _ _).1, (hres _ _ _ _).2⟩
  · intro r₂ m₂
    simp only [fetch_tiles_for_extent, hveq]
    rw [if_pos hss', if_neg (hsmooth resample), if_neg (hsmooth r₂)]

/-- Witness for C8 with `Esri.Terrain`, zoom 10, supersample 1, a constant
tile oracle and a resizer that honours the requested dimensions. -/
theorem fetch_tiles_supersample_spec_witness :
    (∃ img, fetch_tiles_for_extent esri_terrain (fun _ _ _ => Img.new 256 256)
        (fun _ w h _ => Img.new w h) (0, 1, 0, 1) 10 1 true "nearest"
        = .ok img ∧
      img.width = (((extent_to_tile_indices (0, 1, 0, 1) 10).2.2.1 -
        (extent_to_tile_indices (0, 1, 0, 1) 10).1 + 1) *
        (esri_terrain.tile_size : ℤ)).toNat ∧
      img.height = (((extent_to_tile_indices (0, 1, 0, 1) 10).2.2.2 -
        (extent_to_tile_indices (0, 1, 0, 1) 10).2.1 + 1) *
        (esri_terrain.tile_size : ℤ)).toNat) ∧
    (∀ (r₂ : Bool) (m₂ : String),
      fetch_tiles_for_extent esri_terrain (fun _ _ _ => Img.new 256 256)
        (fun _ w h _ => Img.new w h) (0, 1, 0, 1) 10 1 true "nearest"
        = fetch_tiles_for_extent esri_terrain (fun _ _ _ => Img.new 256 256)
        (fun _ w h _ => Img.new w h) (0, 1, 0, 1) 10 1 r₂ m₂) ∧
    get_resample_filter "lanczos" = Filter.lanczos :=
  fetch_tiles_supersample_spec esri_terrain (fun _ _ _ => Img.new 256 256)
    (fun _ w h _ => Img.new w h) (0, 1, 0, 1) 10 1 true "nearest"
    (fun _ _ _ _ => ⟨rfl, rfl⟩) (by decide) (by decide) (by decide) (by decide)

theorem getD_map_range {α : Type} (n k : ℕ) (f : ℕ → α) (d : α) (hk : k < n) :
    ((List.range n).map f).getD k d = f k := by
  rw [List.getD_eq_getElem _ _ (by simpa using hk)]
  simp

theorem unified_fetch_plan_pos (cfg : ProviderConfig) (ss z : ℤ)
    (hss : 0 < ss) (hz : z < cfg.max_zoom) :
    0 < (unified_fetch_plan cfg ss z).1 := by
  simp only [unified_fetch_plan]
  by_cases hc : cfg.max_zoom < z + ss
  · rw [if_pos hc]; omega
  · rw [if_neg hc]; exact hss

theorem unified_sub_tiles_sq (cfg_ts : ℕ)
    (fetchTile : ℤ → ℤ → ℤ → Except Unit Img) (scale fz x y : ℤ)
    (hok : ∀ z' x' y' t, fetchTile z' x' y' = .ok t →
      t.width = cfg_ts ∧ t.height = cfg_ts) :
    ∀ r ∈ unified_sub_tiles fetchTile cfg_ts scale fz x y,
      ∀ t ∈ r, t.width = cfg_ts ∧ t.height = cfg_ts := by
  intro r hr t ht
  simp only [unified_sub_tiles, List.mem_map] at hr
  obtain ⟨dy, -, rfl⟩ := hr
  simp only [List.mem_map] at ht
  obtain ⟨dx, -, rfl⟩ := ht
  cases hft : fetchTile fz (x * scale + (dx : ℤ)) (y * scale + (dy : ℤ)) with
  | ok t' => simpa [hft] using hok _ _ _ _ hft
  | error e => simp [hft, Img.new]

/-- Claim C9: in the lazy adapter's supersampled per-tile path, a failed
sub-tile fetch is substituted by a fully transparent blank tile of the
provider tile edge, so `get_image` always returns (never propagates the
failure) an image of exactly `tile_size × tile_size`, and the pre-resize
composite is fully transparent `(0,0,0,0)` throughout the failed sub-tile's
block while only that block is affected. -/
theorem unified_get_image_spec (cfg : ProviderConfig) (tile_size : ℕ)
    (fetchTile : ℤ → ℤ → ℤ → Except Unit Img)
    (resizeImpl : Img → ℕ → ℕ → Filter → Img) (resample_filter : Filter)
    (parentResult : Except Unit (Img × (ℝ × ℝ × ℝ × ℝ) × String))
    (ss x y z act fz scale : ℤ) (dx₀ dy₀ : ℕ)
    (hplan : unified_fetch_plan cfg ss z = (act, fz))
    (hscale : scale = (2 : ℤ) ^ act.toNat)
    (hres : ∀ img w h f, (resizeImpl img w h f).width = w ∧
      (resizeImpl img w h f).height = h)
    (hok : ∀ z' x' y' t, fetchTile z' x' y' = .ok t →
      t.width = tile_size ∧ t.height = tile_size)
    (hss : 0 < ss) (hz : z < cfg.max_zoom)
    (hdy : dy₀ < scale.toNat) (hdx : dx₀ < scale.toNat)
    (hfail : fetchTile fz (x * scale + (dx₀ : ℤ)) (y * scale + (dy₀ : ℤ)) =
      .error ()) :
    (∃ img ext origin, unified_get_image cfg tile_size fetchTile resizeImpl
        resample_filter parentResult ss x y z = .ok (img, ext, origin) ∧
      img.width = tile_size ∧ img.height = tile_size) ∧
    ((unified_sub_tiles fetchTile tile_size scale fz x y).getD dy₀ []).getD
      dx₀ (Img.new 0 0) = Img.new tile_size tile_size ∧
    (∀ i j, i < tile_size → j < tile_size →
      (combine_tiles (unified_sub_tiles fetchTile tile_size scale fz x y)
        tile_size).pix (dx₀ * tile_size + i) (dy₀ * tile_size + j) =
        (0, 0, 0, 0)) := by
  have hact : 0 < act := by
    have := unified_fetch_plan_pos cfg ss z hss hz
    rw [hplan] at this
    exact this
  have hb : ((unified_sub_tiles fetchTile tile_size scale fz x y).getD dy₀
      []).getD dx₀ (Img.new 0 0) = Img.new tile_size tile_size := by
    simp only [unified_sub_tiles]
    rw [getD_map_range _ _ _ _ hdy, getD_map_range _ _ _ _ hdx, hfail]
  refine ⟨?_, hb, ?_⟩
  · simp only [unified_get_image, hplan]
    rw [if_neg (not_le.mpr hss), if_neg (not_le.mpr hact), ← hscale]
    cases parentResult with
    | ok r => exact ⟨_, _, _, rfl, (hres _ _ _ _).1, (hres _ _ _ _).2⟩
    | error e => exact ⟨_, _, _, rfl, (hres _ _ _ _).1, (hres _ _ _ _).2⟩
  · intro i j hi hj
    have hsq := unified_sub_tiles_sq tile_size fetchTile scale fz x y hok
    have hscale0 : 0 < scale.toNat := by
      have h0 : (0 : ℤ) < scale := by rw [hscale]; positivity
      omega
    have hlen : (unified_sub_tiles fetchTile tile_size scale fz x y).length =
        scale.toNat := by
      simp [unified_sub_tiles]
    have hrow : ((unified_sub_tiles fetchTile tile_size scale fz x
        y).getD dy₀ []).length = scale.toNat := by
      simp only [unified_sub_tiles]
      rw [getD_map_range _ _ _ _ hdy]
      simp
    have hhead : (unified_sub_tiles fetchTile tile_size scale fz x
        y).headI.length = scale.toNat := by
      obtain ⟨mm, hmm⟩ : ∃ mm, scale.toNat = mm + 1 :=
        ⟨scale.toNat - 1, by omega⟩
      simp only [unified_sub_tiles, hmm, List.range_succ_eq_map,
        List.map_cons]
      simp
    simp only [combine_tiles]
    rw [if_neg (show ¬((unified_sub_tiles fetchTile tile_size scale fz x
        y).length = 0 ∨ (unified_sub_tiles fetchTile tile_size scale fz x
        y).headI.length = 0) by omega)]
    have hit := pasteRowsAux_pix_hit
      (Img.new ((unified_sub_tiles fetchTile tile_size scale fz x
        y).headI.length * tile_size)
        ((unified_sub_tiles fetchTile tile_size scale fz x y).length *
          tile_size))
      (unified_sub_tiles fetchTile tile_size scale fz x y) tile_size 0 dy₀
      dx₀ i j hsq (by omega) (by omega) hi hj
    simp only [Nat.zero_add] at hit
    rw [hit, hb]
    rfl

/-- Witness for C9: `Esri.Terrain` at `z = 0` with supersample 1 fetches a
2×2 sub-tile grid; the fetch stub fails exactly at sub-tile `(0, 0)`, yet the
adapter returns a full 256×256 image and the failed block of the pre-resize
composite is fully transparent. -/
theorem unified_get_image_spec_witness :
    (∃ img ext origin,
      unified_get_image esri_terrain 256
        (fun z' x' y' => if z' = 1 ∧ x' = 0 ∧ y' = 0 then .error ()
          else .ok (Img.new 256 256))
        (fun _ w h _ => Img.new w h) Filter.lanczos (.error ()) 1 0 0 0 =
        .ok (img, ext, origin) ∧ img.width = 256 ∧ img.height = 256) ∧
    ((unified_sub_tiles
        (fun z' x' y' => if z' = 1 ∧ x' = 0 ∧ y' = 0 then .error ()
          else .ok (Img.new 256 256)) 256 2 1 0 0).getD 0 []).getD 0
      (Img.new 0 0) = Img.new 256 256 ∧
    (∀ i j, i < 256 → j < 256 →
      (combine_tiles (unified_sub_tiles
        (fun z' x' y' => if z' = 1 ∧ x' = 0 ∧ y' = 0 then .error ()
          else .ok (Img.new 256 256)) 256 2 1 0 0) 256).pix (0 * 256 + i)
        (0 * 256 + j) = (0, 0, 0, 0)) :=
  unified_get_image_spec esri_terrain 256
    (fun z' x' y' => if z' = 1 ∧ x' = 0 ∧ y' = 0 then .error ()
      else .ok (Img.new 256 256))
    (fun _ w h _ => Img.new w h) Filter.lanczos (.error ())
    1 0 0 0 1 1 2 0 0 (by decide) (by decide) (fun _ w h _ => ⟨rfl, rfl⟩)
    (by
      intro z' x' y' t h
      simp only [] at h
      by_cases hc : z' = 1 ∧ x' = 0 ∧ y' = 0
      · rw [if_pos hc] at h
        exact absurd h (by simp)
      · rw [if_neg hc] at h
        injection h with h2
        rw [← h2]
        exact ⟨rfl, rfl⟩)
    (by decide) (by decide) (by decide) (by decide) rfl

end PyEarthViz
